import Mathlib

/-!
Verification of the parser in `src/parse.rs`.

The parser consumes a token stream produced by the lexer (the lexer itself
is out of scope; token and span shapes are modelled from the data-model
section of the design document) and produces a list of top-level items or a
non-empty list of diagnostics.

Every grammar function of `impl Parser` is embedded as a Lean definition.
Because the Rust functions are mutually recursive through blocks and
expressions, the embedding is indexed by a fuel parameter: `mkParsers fuel`
builds the record of all grammar functions, each static call step moving to
`mkParsers (fuel - 1)`.  Running out of fuel yields `none` at the outer
`Option` layer; every claim is stated either for all fuel values or at a
fuel value comfortably above the recursion depth of its concrete input.
-/

set_option synthInstance.maxSize 2048

namespace ParseRs

/-- Modelled from the spec: a source position carried by spans
(absolute offset, line, column). -/
structure Loc where
  pos : Nat
  line : Nat
  col : Nat
deriving DecidableEq, Repr

/-- Modelled from the spec: a half-open source range.  `stop` renders the
Rust field `end`, which is a reserved word in Lean. -/
structure Span where
  start : Loc
  stop : Loc
deriving DecidableEq, Repr

/-- Modelled from the spec: two spans merge into the smallest span covering
both — the lesser start and the greater end. -/
def Span.merge (s1 s2 : Span) : Span :=
  { start := if s2.start.pos < s1.start.pos then s2.start else s1.start
    stop := if s2.stop.pos > s1.stop.pos then s2.stop else s1.stop }

/-- Modelled from the spec: `Sp<T>` pairs a value with its span. -/
structure Sp (α : Type) where
  value : α
  span : Span
deriving DecidableEq, Repr

/-- `span.sp(value)` from the Rust code. -/
def Span.sp (s : Span) (v : α) : Sp α := ⟨v, s⟩

/-- `Sp::map`: transform the value, keep the span. -/
def Sp.map (f : α → β) (s : Sp α) : Sp β := ⟨f s.value, s.span⟩

/-- `Sp::filter_map` as used at the assignment operator: keep the span if
the function yields a value. -/
def Sp.filterMap (f : α → Option β) (s : Sp α) : Option (Sp β) :=
  (f s.value).map fun b => ⟨b, s.span⟩

/-- Modelled from the spec: keyword tokens used by the grammar. -/
inductive Keyword where
  | Fn | Let | Or | And | Not | True | False
deriving DecidableEq, Repr

/-- Punctuation/operator tokens (`Simple` in the Rust code), as consumed by
`parse.rs`. -/
inductive Simple where
  | SemiColon | Colon | Comma | Period
  | OpenParen | CloseParen | OpenBracket | CloseBracket
  | OpenCurly | CloseCurly
  | Equals | PlusEquals | MinusEquals | StarEquals | SlashEquals
  | Equal | NotEqual | Less | LessEqual | Greater | GreaterEqual
  | Plus | Minus | Star | Slash
deriving DecidableEq, Repr

/-- Modelled from the spec: the token variants (keyword, simple, identifier,
integer literal, real literal, ordinary comment, documentation-comment
line).  The real-literal payload is kept opaque as its source text, since no
parser decision inspects it. -/
inductive Token where
  | Keyword (k : Keyword)
  | Simple (s : Simple)
  | Ident (s : String)
  | Integer (i : Int)
  | Real (r : String)
  | Comment (s : String)
  | DocComment (s : String)
deriving DecidableEq, Repr

/-- `Token::as_ident`. -/
def Token.asIdent : Token → Option String
  | .Ident s => some s
  | _ => none

/-- `Token::as_integer`. -/
def Token.asInteger : Token → Option Int
  | .Integer i => some i
  | _ => none

/-- `Token::as_real` (payload modelled as source text). -/
def Token.asReal : Token → Option String
  | .Real r => some r
  | _ => none

/-- The comment test of `next_token_map` (the Rust code checks
`matches!(token.value, Token::Comment(_))`). -/
def Token.isComment : Token → Bool
  | .Comment _ => true
  | _ => false

/-- `Expectation` from `parse.rs`.  The Rust variant `Type` is rendered
`Ty` because `Type` is reserved in Lean. -/
inductive Expectation where
  | Ident
  | Block
  | Ty
  | Expr
  | Pattern
  | Eof
  | Simple (s : Simple)
deriving DecidableEq, Repr

/-- `ParseError` from `parse.rs`.  The `Lex` variant wraps a lexical error
produced before the grammar stage; lexing is out of scope here, so only the
`Expected` variant is inhabited by the embedded parser. -/
inductive ParseError where
  | Expected (exps : List Expectation) (found : Option (Sp Token))
deriving DecidableEq, Repr

/-- Binary operators of the AST. -/
inductive BinOp where
  | Or | And | Eq | Ne | Lt | Le | Gt | Ge | Add | Sub | Mul | Div
deriving DecidableEq, Repr

/-- Unary operators of the AST. -/
inductive UnOp where
  | Neg | Not
deriving DecidableEq, Repr

/-- Patterns: identifier or tuple of sub-patterns. -/
inductive Pattern where
  | Ident (s : String)
  | Tuple (items : List (Sp Pattern))

/-- Types: named, array of a type, or tuple of types.  Named `Ty` because
`Type` is reserved in Lean. -/
inductive Ty where
  | Ident (s : String)
  | Array (inner : Ty)
  | Tuple (items : List (Sp Ty))

/-- Field accessors. -/
inductive Accessor where
  | Field (s : String)
deriving DecidableEq, Repr

mutual

/-- Expressions, mirroring `ast::Expr` as constructed by the parser.  The
`Bin`/`Un`/`Call`/`Access`/`Assign` payload structs are inlined as
constructor fields; `Assign` holds the optional compound operator. -/
inductive Expr where
  | Ident (s : String)
  | Integer (i : Int)
  | Real (r : String)
  | Bool (b : Bool)
  | Block (b : Block)
  | Tuple (items : List (Sp Expr))
  | Array (items : List (Sp Expr))
  | Un (op : Sp UnOp) (expr : Sp Expr)
  | Bin (lhs : Sp Expr) (op : Sp BinOp) (rhs : Sp Expr)
  | Call (expr : Sp Expr) (args : List (Sp Expr))
  | Access (expr : Sp Expr) (accessor : Sp Accessor)
  | Assign (lvalue : Sp Expr) (op : Option (Sp BinOp)) (expr : Sp Expr)

/-- Blocks: an ordered sequence of items. -/
inductive Block where
  | mk (items : List Item)

/-- `ast::FunctionDef`: optional accumulated doc string, name, parameters,
body block. -/
inductive FunctionDef where
  | mk (doc : Option (Sp String)) (name : Sp String) (params : List Param)
      (body : Block)

/-- `ast::Param`: a `name : type` function parameter. -/
inductive Param where
  | mk (name : Sp String) (ty : Sp Ty)

/-- `ast::Binding`: a `let`-style declaration. -/
inductive Binding where
  | mk (pattern : Sp Pattern) (expr : Sp Expr)

/-- Top-level (and block-level) items. -/
inductive Item where
  | FunctionDef (f : FunctionDef)
  | Binding (b : Binding)
  | Expr (e : Sp Expr)

end

/-- Parser state: the immutable token sequence and the read index.  The
Rust struct also carries an error accumulator, but the only method that
touches it is `parse` itself (for the trailing end-of-file check), so the
accumulator is kept local to `parseTokens` below. -/
structure Parser where
  tokens : List (Sp Token)
  index : Nat
deriving DecidableEq, Repr

/-- The monad of grammar functions: state passing over `Parser`, failure
with a spanned `ParseError` (`ParseResult` in Rust), and an outer `Option`
layer in which `none` means the embedding ran out of fuel. -/
def ParseM (α : Type) : Type :=
  Parser → Option (Except (Sp ParseError) (α × Parser))

instance : Monad ParseM where
  pure a := fun p => some (.ok (a, p))
  bind x f := fun p =>
    match x p with
    | none => none
    | some (.error e) => some (.error e)
    | some (.ok (a, p1)) => f a p1

/-- Raise a parse error (the `Err` path of `ParseResult`). -/
def pThrow (e : Sp ParseError) : ParseM α := fun _ => some (.error e)

/-- Out of fuel: no result at the meta level. -/
def noFuel : ParseM α := fun _ => none

/-- The comment-skipping scan loop inside `next_token_map`, acting on the
token suffix from the read index: returns the mapped token (if the first
non-comment token satisfies the function) and the number of tokens
consumed. -/
def ntmGo (f : Token → Option α) : List (Sp Token) → Option (Sp α) × Nat
  | [] => (none, 0)
  | t :: rest =>
    if t.value.isComment then
      let r := ntmGo f rest
      (r.1, r.2 + 1)
    else
      match f t.value with
      | some x => (some (t.span.sp x), 1)
      | none => (none, 0)

/-- `Parser::next_token_map` as a pure state transformer (it never fails). -/
def ntmRun (f : Token → Option α) (p : Parser) : Option (Sp α) × Parser :=
  let (r, n) := ntmGo f (p.tokens.drop p.index)
  (r, { p with index := p.index + n })

/-- `Parser::next_token_map` in the parse monad. -/
def nextTokenMap (f : Token → Option α) : ParseM (Option (Sp α)) :=
  fun p =>
    let (r, p1) := ntmRun f p
    some (.ok (r, p1))

/-- `Parser::try_exact`. -/
def tryExact (token : Token) : ParseM (Option Span) := do
  let r ← nextTokenMap fun t => if t = token then some () else none
  pure (r.map fun s => s.span)

/-- `Parser::last_span`.  Returns `none` exactly where the Rust code would
panic (`tokens.last().unwrap()` on an empty token list, unreachable from
`parse`). -/
def lastSpan? (p : Parser) : Option Span :=
  match p.tokens[p.index]? with
  | some t => some t.span
  | none =>
    match p.tokens.getLast? with
    | none => none
    | some last =>
      let s : Span := ⟨last.span.stop, last.span.stop⟩
      if p.tokens.length > s.stop.pos then
        some ⟨s.start, { s.stop with pos := s.stop.pos + 1, col := s.stop.col + 1 }⟩
      else
        some s

/-- `Parser::expected`: build the spanned diagnostic at the current
position. -/
def expectedErr (p : Parser) (exps : List Expectation) : Option (Sp ParseError) :=
  (lastSpan? p).map fun s =>
    s.sp (ParseError.Expected exps (p.tokens[p.index]?))

/-- Fail with an `Expected` diagnostic at the current position (mapping the
unreachable empty-token panic of `last_span` to fuel-out). -/
def pExpected (exps : List Expectation) : ParseM α := fun p =>
  match expectedErr p exps with
  | some e => some (.error e)
  | none => none

/-- `Parser::expect`. -/
def expect (simple : Simple) : ParseM Span := do
  match ← tryExact (Token.Simple simple) with
  | some s => pure s
  | none => pExpected [Expectation.Simple simple]

/-- `Parser::try_ident`. -/
def tryIdent : ParseM (Option (Sp String)) :=
  nextTokenMap Token.asIdent

/-- `Parser::ident`. -/
def ident : ParseM (Sp String) := do
  match ← tryIdent with
  | some i => pure i
  | none => pExpected [Expectation.Ident]

/-- The item loop of `try_surrounded_list` (and of the tuple-type arm of
`try_ty`): parse items as long as the item parser matches, consuming a
comma after each item and stopping when no comma follows. -/
def sepListGo (item : ParseM (Option α)) (fuel : Nat) (acc : List α) :
    ParseM (List α) :=
  @Nat.rec (fun _ => List α → ParseM (List α))
    (fun _ => noFuel)
    (fun _ rec acc => do
      match ← item with
      | none => pure acc
      | some x =>
        match ← tryExact (Token.Simple Simple.Comma) with
        | none => pure (acc ++ [x])
        | some _ => rec (acc ++ [x]))
    fuel acc

/-- `Parser::try_surrounded_list`.  `openS`/`closeS` render the Rust
parameters `open`/`close` (`open` is reserved in Lean). -/
def trySurroundedList (fuel : Nat) (openS closeS : Simple)
    (item : ParseM (Option α)) : ParseM (Option (Sp (List α))) := do
  match ← tryExact (Token.Simple openS) with
  | none => pure none
  | some start => do
    let items ← sepListGo item fuel []
    let stop ← expect closeS
    pure (some ((start.merge stop).sp items))

/-- `Parser::surrounded_list`. -/
def surroundedList (fuel : Nat) (openS closeS : Simple)
    (item : ParseM (Option α)) : ParseM (Sp (List α)) := do
  match ← trySurroundedList fuel openS closeS item with
  | some r => pure r
  | none => pExpected [Expectation.Simple openS]

/-- The item-collection loop shared by `parse` and `try_block`: parse items
while the item parser matches. -/
def manyGo (item : ParseM (Option α)) (fuel : Nat) (acc : List α) :
    ParseM (List α) :=
  @Nat.rec (fun _ => List α → ParseM (List α))
    (fun _ => noFuel)
    (fun _ rec acc => do
      match ← item with
      | none => pure acc
      | some x => rec (acc ++ [x]))
    fuel acc

/-- The accumulation loop of `Parser::doc_comment`: collect consecutive
doc-comment lines into one spanned string (concatenating the text and
extending the span to the last line). -/
def docGo (fuel : Nat) (doc : Option (Sp String)) :
    ParseM (Option (Sp String)) :=
  @Nat.rec (fun _ => Option (Sp String) → ParseM (Option (Sp String)))
    (fun _ => noFuel)
    (fun _ rec doc => do
      let line? ← nextTokenMap fun t =>
        match t with
        | Token.DocComment s => some s
        | _ => none
      match line? with
      | none => pure doc
      | some line =>
        match doc with
        | none => rec (some line)
        | some d =>
          rec (some ⟨d.value ++ line.value, ⟨d.span.start, line.span.stop⟩⟩))
    fuel doc

/-- The `find_map`/`try_exact` scan shared by the binary-operator loop, the
unary-operator dispatch and the assignment-operator dispatch: try each
token in order, returning the first match spanned with its payload. -/
def tryTokenList : List (Token × β) → ParseM (Option (Sp β))
  | [] => pure none
  | (t, b) :: rest => do
    match ← tryExact t with
    | some s => pure (some (s.sp b))
    | none => tryTokenList rest

/-- `Parser::expect_expr`. -/
def expectExpr (f : ParseM (Option (Sp Expr))) : ParseM (Sp Expr) := do
  match ← f with
  | some e => pure e
  | none => pExpected [Expectation.Expr]

/-- `BinExprDef`: one tier of the binary-operator ladder — its operator
tokens and the next tighter tier. -/
inductive BinExprDef where
  | mk (ops : List (Token × BinOp)) (child : Option BinExprDef)

/-- `BIN_EXPR_OR`: the static six-tier precedence ladder (or, and,
equality/relational, additive, multiplicative; unary and below are reached
through the leaf). -/
def BIN_EXPR_OR : BinExprDef :=
  .mk [(Token.Keyword Keyword.Or, BinOp.Or)]
    (some (.mk [(Token.Keyword Keyword.And, BinOp.And)]
      (some (.mk [
          (Token.Simple Simple.Equal, BinOp.Eq),
          (Token.Simple Simple.NotEqual, BinOp.Ne),
          (Token.Simple Simple.Less, BinOp.Lt),
          (Token.Simple Simple.LessEqual, BinOp.Le),
          (Token.Simple Simple.Greater, BinOp.Gt),
          (Token.Simple Simple.GreaterEqual, BinOp.Ge)]
        (some (.mk [
            (Token.Simple Simple.Plus, BinOp.Add),
            (Token.Simple Simple.Minus, BinOp.Sub)]
          (some (.mk [
              (Token.Simple Simple.Star, BinOp.Mul),
              (Token.Simple Simple.Slash, BinOp.Div)]
            none))))))))

/-- The `'rhs: loop` of `try_bin_expr_def`: while one of the tier's
operator tokens matches, parse a right operand with the tier's leaf parser
and fold the spanning binary node to the left. -/
def binLoop (ops : List (Token × BinOp)) (leaf : ParseM (Option (Sp Expr)))
    (fuel : Nat) (lhs : Sp Expr) : ParseM (Sp Expr) :=
  @Nat.rec (fun _ => Sp Expr → ParseM (Sp Expr))
    (fun _ => noFuel)
    (fun _ rec lhs => do
      match ← tryTokenList ops with
      | none => pure lhs
      | some op => do
        let rhs ← expectExpr leaf
        rec ((lhs.span.merge rhs.span).sp (Expr.Bin lhs op rhs)))
    fuel lhs

/-- The postfix loop of `try_call_access`: while an argument list or a
`.field` follows, wrap the running expression in a call or access node. -/
def callAccessGo (argItem : ParseM (Option (Sp Expr))) (fuel : Nat)
    (e : Sp Expr) : ParseM (Sp Expr) :=
  @Nat.rec (fun _ => Sp Expr → ParseM (Sp Expr))
    (fun _ => noFuel)
    (fun fuel rec e => do
      match ← trySurroundedList fuel Simple.OpenParen Simple.CloseParen argItem with
      | some args =>
        rec ((e.span.merge args.span).sp (Expr.Call e args.value))
      | none =>
        match ← tryExact (Token.Simple Simple.Period) with
        | some _ => do
          let id ← ident
          rec ((e.span.merge id.span).sp (Expr.Access e (id.map Accessor.Field)))
        | none => pure e)
    fuel e

/-- The operator table of `try_expr`'s assignment layer. -/
def assignOps : List (Token × Option BinOp) :=
  [(Token.Simple Simple.Equals, none),
   (Token.Simple Simple.PlusEquals, some BinOp.Add),
   (Token.Simple Simple.MinusEquals, some BinOp.Sub),
   (Token.Simple Simple.StarEquals, some BinOp.Mul),
   (Token.Simple Simple.SlashEquals, some BinOp.Div)]

/-- The record of all mutually recursive grammar functions of
`impl Parser`, at one fuel level. -/
structure Parsers where
  tryItem : ParseM (Option Item)
  tryFunctionDef : ParseM (Option FunctionDef)
  tryBinding : ParseM (Option Binding)
  tryPattern : ParseM (Option (Sp Pattern))
  pattern : ParseM (Sp Pattern)
  tryBlock : ParseM (Option (Sp Block))
  block : ParseM (Sp Block)
  tryParam : ParseM (Option Param)
  tryTy : ParseM (Option (Sp Ty))
  ty : ParseM (Sp Ty)
  tryExpr : ParseM (Option (Sp Expr))
  expr : ParseM (Sp Expr)
  tryBinExprDef : BinExprDef → ParseM (Option (Sp Expr))
  tryUnExpr : ParseM (Option (Sp Expr))
  tryCallAccess : ParseM (Option (Sp Expr))
  tryTerm : ParseM (Option (Sp Expr))

/-- All grammar functions at fuel zero: no result. -/
def noFuelParsers : Parsers where
  tryItem := noFuel
  tryFunctionDef := noFuel
  tryBinding := noFuel
  tryPattern := noFuel
  pattern := noFuel
  tryBlock := noFuel
  block := noFuel
  tryParam := noFuel
  tryTy := noFuel
  ty := noFuel
  tryExpr := noFuel
  expr := noFuel
  tryBinExprDef := fun _ => noFuel
  tryUnExpr := noFuel
  tryCallAccess := noFuel
  tryTerm := noFuel

/-- One fuel level of the grammar functions of `impl Parser`.  Each field
is a direct transcription of the corresponding Rust method; the recursive
references go through `P`, the record one fuel level down (`fuel` is that
lower level, used by the iteration loops). -/
def mkParsersStep (fuel : Nat) (P : Parsers) : Parsers :=
    { -- `try_item`: function def, then binding, then expression statement.
      tryItem := do
        match ← P.tryFunctionDef with
        | some d => pure (some (Item.FunctionDef d))
        | none =>
          match ← P.tryBinding with
          | some b => pure (some (Item.Binding b))
          | none =>
            match ← P.tryExpr with
            | some e => do
              let _ ← expect Simple.SemiColon
              pure (some (Item.Expr e))
            | none => pure none
      -- `try_function_def`: doc comments, `fn`, name, parameter list, body.
      tryFunctionDef := do
        let doc ← docGo fuel none
        match ← tryExact (Token.Keyword Keyword.Fn) with
        | none => pure none
        | some _ => do
          let name ← ident
          let params ← surroundedList fuel Simple.OpenParen Simple.CloseParen
            P.tryParam
          let body ← P.block
          pure (some (FunctionDef.mk doc name params.value body.value))
      -- `try_binding`: `let`, pattern, `=`, expression, `;`.
      tryBinding := do
        match ← tryExact (Token.Keyword Keyword.Let) with
        | none => pure none
        | some _ => do
          let pat ← P.pattern
          let _ ← expect Simple.Equals
          let e ← P.expr
          let _ ← expect Simple.SemiColon
          pure (some (Binding.mk pat e))
      -- `try_pattern`: identifier or parenthesized tuple of patterns.
      tryPattern := do
        match ← tryIdent with
        | some id => pure (some (id.map Pattern.Ident))
        | none =>
          match ← trySurroundedList fuel Simple.OpenParen Simple.CloseParen
              P.tryPattern with
          | some items => pure (some (items.map Pattern.Tuple))
          | none => pure none
      pattern := do
        match ← P.tryPattern with
        | some pat => pure pat
        | none => pExpected [Expectation.Pattern]
      -- `try_block`: `{`, items while they match, `}`.
      tryBlock := do
        match ← tryExact (Token.Simple Simple.OpenCurly) with
        | none => pure none
        | some start => do
          let items ← manyGo P.tryItem fuel []
          let stop ← expect Simple.CloseCurly
          pure (some ((start.merge stop).sp (Block.mk items)))
      block := do
        match ← P.tryBlock with
        | some b => pure b
        | none => pExpected [Expectation.Block]
      -- `try_param`: identifier, `:`, type.
      tryParam := do
        match ← tryIdent with
        | none => pure none
        | some name => do
          let _ ← expect Simple.Colon
          let t ← P.ty
          pure (some (Param.mk name t))
      -- `try_ty`: named type, `[type]` array, or tuple of types.  Note the
      -- array arm keeps the inner type's span (as the Rust code does).
      tryTy := do
        match ← tryIdent with
        | some id => pure (some (id.map Ty.Ident))
        | none =>
          match ← tryExact (Token.Simple Simple.OpenBracket) with
          | some _ => do
            let inner ← P.ty
            let _ ← expect Simple.CloseBracket
            pure (some (inner.map Ty.Array))
          | none =>
            match ← tryExact (Token.Simple Simple.OpenParen) with
            | some start => do
              let tys ← sepListGo P.tryTy fuel []
              let stop ← expect Simple.CloseParen
              pure (some ((start.merge stop).sp (Ty.Tuple tys)))
            | none => pure none
      ty := do
        match ← P.tryTy with
        | some t => pure t
        | none => pExpected [Expectation.Ty]
      -- `try_expr`: the binary ladder, then an optional assignment whose
      -- right-hand side is the full expression production again.
      tryExpr := do
        match ← P.tryBinExprDef BIN_EXPR_OR with
        | none => pure none
        | some e =>
          match ← tryTokenList assignOps with
          | none => pure (some e)
          | some op => do
            let rhs ← P.expr
            pure (some ((e.span.merge rhs.span).sp
              (Expr.Assign e (op.filterMap id) rhs)))
      expr := do
        match ← P.tryExpr with
        | some e => pure e
        | none => pExpected [Expectation.Expr]
      -- `try_bin_expr_def`: left operand from the leaf (child tier or
      -- unary), then the left-folding operator loop.
      tryBinExprDef := fun d =>
        match d with
        | .mk ops child =>
          let leaf :=
            match child with
            | some c => P.tryBinExprDef c
            | none => P.tryUnExpr
          do
            match ← leaf with
            | none => pure none
            | some lhs => do
              let e ← binLoop ops leaf fuel lhs
              pure (some e)
      -- `try_un_expr`: right-recursive prefix operators over the postfix
      -- chain.
      tryUnExpr := do
        match ← tryTokenList
            [(Token.Simple Simple.Minus, UnOp.Neg),
             (Token.Keyword Keyword.Not, UnOp.Not)] with
        | some op => do
          let e ← expectExpr P.tryUnExpr
          pure (some ((op.span.merge e.span).sp (Expr.Un op e)))
        | none => P.tryCallAccess
      -- `try_call_access`: a term followed by the postfix call/access loop.
      tryCallAccess := do
        match ← P.tryTerm with
        | none => pure none
        | some e => do
          let r ← callAccessGo P.tryExpr fuel e
          pure (some r)
      -- `try_term`: primary expressions.
      tryTerm := do
        match ← tryIdent with
        | some id => pure (some (id.map Expr.Ident))
        | none =>
          match ← nextTokenMap Token.asInteger with
          | some i => pure (some (i.map Expr.Integer))
          | none =>
            match ← nextTokenMap Token.asReal with
            | some r => pure (some (r.map Expr.Real))
            | none =>
              match ← tryExact (Token.Keyword Keyword.True) with
              | some s => pure (some (s.sp (Expr.Bool true)))
              | none =>
                match ← tryExact (Token.Keyword Keyword.False) with
                | some s => pure (some (s.sp (Expr.Bool false)))
                | none =>
                  match ← P.tryBlock with
                  | some b => pure (some (b.map Expr.Block))
                  | none =>
                    match ← trySurroundedList fuel Simple.OpenParen
                        Simple.CloseParen P.tryExpr with
                    | some items => pure (some (items.map Expr.Tuple))
                    | none =>
                      match ← trySurroundedList fuel Simple.OpenBracket
                          Simple.CloseBracket P.tryExpr with
                      | some items => pure (some (items.map Expr.Array))
                      | none => pure none }

/-- The grammar functions at a given fuel level, tying the recursive knot
of `mkParsersStep` through `Nat.rec` (which reduces lazily, keeping
evaluation of concrete parses tractable). -/
def mkParsers (fuel : Nat) : Parsers :=
  @Nat.rec (fun _ => Parsers) noFuelParsers mkParsersStep fuel

/-- The item-collection phase of `parse`: run the `try_item` loop from the
start of the token stream. -/
def parseItemsPhase (fuel : Nat) (tokens : List (Sp Token)) :
    Option (Except (Sp ParseError) (List Item × Parser)) :=
  manyGo (mkParsers fuel).tryItem fuel [] { tokens := tokens, index := 0 }

/-- `parse` (minus the lexing front end, which is out of scope): collect
items, flush trailing comments, and report a single "expected end of file"
diagnostic if unconsumed tokens remain.  In Rust the diagnostic is pushed
onto the parser's error accumulator, which is empty at this point (no other
method touches it), so the accumulator is materialized locally. -/
def parseTokens (fuel : Nat) (tokens : List (Sp Token)) :
    Option (Except (List (Sp ParseError)) (List Item)) :=
  match parseItemsPhase fuel tokens with
  | none => none
  | some (.error e) => some (.error [e])
  | some (.ok (items, p)) =>
    let (_, p2) := ntmRun (fun _ => (none : Option Unit)) p
    if p2.index ≠ p2.tokens.length then
      match expectedErr p2 [Expectation.Eof] with
      | some e => some (.error [e])
      | none => none
    else
      some (.ok items)

/-! Concrete token streams for the claims.  The lexer is out of scope, so
test inputs are given directly as token sequences; each token is placed at
a synthetic one-character span (token number `i` at offset `i`), which is
all the span bookkeeping the parser ever inspects. -/

/-- A token at the synthetic one-character span starting at offset `i`. -/
def tokAt (i : Nat) (t : Token) : Sp Token :=
  ⟨t, ⟨⟨i, 0, i⟩, ⟨i + 1, 0, i + 1⟩⟩⟩

/-- Lay out a token list at consecutive synthetic spans from offset `i`. -/
def mkToksFrom (i : Nat) : List Token → List (Sp Token)
  | [] => []
  | t :: rest => tokAt i t :: mkToksFrom (i + 1) rest

/-- Lay out a token list at consecutive synthetic spans from offset 0. -/
def mkToks (ts : List Token) : List (Sp Token) :=
  mkToksFrom 0 ts

/-- The synthetic span of tokens `i` (inclusive) to `j` (exclusive). -/
def spanAt (i j : Nat) : Span :=
  ⟨⟨i, 0, i⟩, ⟨j, 0, j⟩⟩

/-- Run `try_expr` on a token stream from the start. -/
def runTryExpr (fuel : Nat) (tokens : List (Sp Token)) :
    Option (Except (Sp ParseError) (Option (Sp Expr) × Parser)) :=
  (mkParsers fuel).tryExpr { tokens := tokens, index := 0 }

/-- Run `try_term` on a token stream from the start. -/
def runTryTerm (fuel : Nat) (tokens : List (Sp Token)) :
    Option (Except (Sp ParseError) (Option (Sp Expr) × Parser)) :=
  (mkParsers fuel).tryTerm { tokens := tokens, index := 0 }

/-! Observation functions.  The syntax-tree types are mutually recursive
through nested lists, for which this Lean version cannot derive decidable
equality, so concrete parse results are observed through shallow,
non-recursive projections into types that do have decidable equality.
Each projection is a single constructor-shape pattern match: an observation
equal to `some …` pins the exact constructor shape and payloads of the
result. -/

/-- Observe the parsed expression of a successful `try_expr`/`try_term`
run. -/
def exprResult? (r : Option (Except (Sp ParseError) (Option (Sp Expr) × Parser))) :
    Option (Sp Expr × Nat) :=
  match r with
  | some (.ok (some e, p)) => some (e, p.index)
  | _ => none

/-- Observe a binary node whose right operand is itself a binary node
(`lhs OP1 (rlhs OP2 rrhs)`), projecting the three leaves through `leaf`. -/
def binRight? (leaf : Expr → Option α) (e : Expr) :
    Option (α × BinOp × α × BinOp × α) :=
  match e with
  | .Bin ⟨l, _⟩ ⟨op1, _⟩ ⟨.Bin ⟨rl, _⟩ ⟨op2, _⟩ ⟨rr, _⟩, _⟩ =>
    match leaf l, leaf rl, leaf rr with
    | some a, some b, some c => some (a, op1, b, op2, c)
    | _, _, _ => none
  | _ => none

/-- Observe a binary node whose left operand is itself a binary node
(`(llhs OP1 lrhs) OP2 rhs`), projecting the three leaves through `leaf`. -/
def binLeft? (leaf : Expr → Option α) (e : Expr) :
    Option (α × BinOp × α × BinOp × α) :=
  match e with
  | .Bin ⟨.Bin ⟨ll, _⟩ ⟨op1, _⟩ ⟨lr, _⟩, _⟩ ⟨op2, _⟩ ⟨r, _⟩ =>
    match leaf ll, leaf lr, leaf r with
    | some a, some b, some c => some (a, op1, b, op2, c)
    | _, _, _ => none
  | _ => none

/-- Observe an integer-literal leaf. -/
def intLeaf? (e : Expr) : Option Int :=
  match e with
  | .Integer i => some i
  | _ => none

/-- Observe an identifier leaf. -/
def identLeaf? (e : Expr) : Option String :=
  match e with
  | .Ident s => some s
  | _ => none

def toksC6a : List (Sp Token) :=
  mkToks [.Integer 1, .Simple .Plus, .Integer 2, .Simple .Star, .Integer 3]

def toksC6b : List (Sp Token) :=
  mkToks [.Ident "a", .Keyword .Or, .Ident "b", .Keyword .And, .Ident "c"]

/-- The shape of a fully parsed two-operator expression: the expression
node observed through `binRight?`/`binLeft?`, its overall span, and the
final read index. -/
abbrev twoOpShape (α : Type) : Type :=
  Option (Option (α × BinOp × α × BinOp × α) × Span × Nat)

/-- Observe a two-operator expression parse through `shape` (either
`binRight?` or `binLeft?`) and `leaf`. -/
def twoOpObs (shape : (Expr → Option α) → Expr → Option (α × BinOp × α × BinOp × α))
    (leaf : Expr → Option α)
    (r : Option (Except (Sp ParseError) (Option (Sp Expr) × Parser))) :
    twoOpShape α :=
  (exprResult? r).map fun x => (shape leaf x.1.value, x.1.span, x.2)

def leftAssocOps : List (Token × BinOp) :=
  [(Token.Simple Simple.Plus, BinOp.Add),
   (Token.Simple Simple.Minus, BinOp.Sub),
   (Token.Simple Simple.Star, BinOp.Mul),
   (Token.Simple Simple.Slash, BinOp.Div),
   (Token.Simple Simple.Equal, BinOp.Eq),
   (Token.Simple Simple.NotEqual, BinOp.Ne),
   (Token.Simple Simple.Less, BinOp.Lt),
   (Token.Simple Simple.LessEqual, BinOp.Le),
   (Token.Simple Simple.Greater, BinOp.Gt),
   (Token.Simple Simple.GreaterEqual, BinOp.Ge)]

def c7Toks (t : Token) : List (Sp Token) :=
  mkToks [.Ident "a", t, .Ident "b", t, .Ident "c"]

def assignChain? (e : Expr) :
    Option (String × Option BinOp × String × Option BinOp × String) :=
  match e with
  | .Assign ⟨.Ident a, _⟩ op1 ⟨.Assign ⟨.Ident b, _⟩ op2 ⟨.Ident c, _⟩, _⟩ =>
    some (a, op1.map Sp.value, b, op2.map Sp.value, c)
  | _ => none

def assignPair? (e : Expr) : Option (String × Option BinOp × String) :=
  match e with
  | .Assign ⟨.Ident a, _⟩ op ⟨.Ident b, _⟩ => some (a, op.map Sp.value, b)
  | _ => none

abbrev assignChainShape : Type :=
  Option (Option (String × Option BinOp × String × Option BinOp × String) × Span × Nat)

abbrev assignPairShape : Type :=
  Option (Option (String × Option BinOp × String) × Span × Nat)

def toksC8chain : List (Sp Token) :=
  mkToks [.Ident "a", .Simple .Equals, .Ident "b", .Simple .Equals, .Ident "c"]

def compoundOps : List (Simple × BinOp) :=
  [(Simple.PlusEquals, BinOp.Add),
   (Simple.MinusEquals, BinOp.Sub),
   (Simple.StarEquals, BinOp.Mul),
   (Simple.SlashEquals, BinOp.Div)]

def tupleElems? (e : Expr) : Option (List (Option (String × Span))) :=
  match e with
  | .Tuple items =>
    some (items.map fun it =>
      match it with
      | ⟨.Ident s, sp⟩ => some (s, sp)
      | _ => none)
  | _ => none

def tupleArity? (e : Expr) : Option Nat :=
  match e with
  | .Tuple items => some items.length
  | _ => none

abbrev tupleShape : Type :=
  Option (Option (List (Option (String × Span))) × Span × Nat)

def termTupleObs (toks : List (Sp Token)) : tupleShape :=
  (exprResult? (runTryTerm 20 toks)).map fun r =>
    (tupleElems? r.1.value, r.1.span, r.2)

def toks2a : List (Sp Token) :=
  mkToks [.Simple .OpenParen, .Ident "a", .Simple .CloseParen]

def toks2b : List (Sp Token) :=
  mkToks [.Simple .OpenParen, .Ident "a", .Simple .Comma, .Simple .CloseParen]

def toks9c : List (Sp Token) :=
  mkToks [.Simple .OpenParen, .Ident "a", .Simple .Comma, .Ident "b",
    .Simple .Comma, .Ident "c", .Simple .CloseParen]

def toks9t : List (Sp Token) :=
  mkToks [.Simple .OpenParen, .Ident "a", .Simple .Comma, .Ident "b",
    .Simple .Comma, .Ident "c", .Simple .Comma, .Simple .CloseParen]

def toks9e : List (Sp Token) :=
  mkToks [.Simple .OpenParen, .Simple .CloseParen]

def bindingObs? (it : Item) : Option (String × Span × Option Int × Span) :=
  match it with
  | .Binding (.mk ⟨.Ident x, psp⟩ ⟨e, esp⟩) => some (x, psp, intLeaf? e, esp)
  | _ => none

def itemsPhaseObs (fuel : Nat) (tokens : List (Sp Token)) :
    Option (List (Option (String × Span × Option Int × Span)) × Nat) :=
  match parseItemsPhase fuel tokens with
  | some (.ok (items, p)) => some (items.map bindingObs?, p.index)
  | _ => none

def parseErrors? (r : Option (Except (List (Sp ParseError)) (List Item))) :
    Option (List (Sp ParseError)) :=
  match r with
  | some (.error e) => some e
  | _ => none

def parseOkObs (fuel : Nat) (tokens : List (Sp Token)) :
    Option (List (Option (String × Span × Option Int × Span))) :=
  match parseTokens fuel tokens with
  | some (.ok items) => some (items.map bindingObs?)
  | _ => none

def toksC1 : List (Sp Token) :=
  mkToks [.Keyword .Let, .Ident "x", .Simple .Equals, .Integer 1,
    .Simple .SemiColon, .Simple .CloseParen]

def toksC3 : List (Sp Token) :=
  mkToks [.Keyword .Fn, .Ident "f", .Simple .OpenParen, .Ident "x",
    .Simple .Colon, .Simple .CloseParen, .Simple .OpenCurly, .Simple .CloseCurly]

def toks10rest : List (Sp Token) :=
  mkToksFrom 2 [.Keyword .Let, .Ident "x", .Simple .Equals, .Integer 1,
    .Simple .SemiColon]

def toks10full : List (Sp Token) :=
  tokAt 0 (.DocComment "doc one ") :: tokAt 1 (.DocComment "doc two") :: toks10rest

def commentPrefixLen : List (Sp Token) → Nat
  | [] => 0
  | t :: rest =>
    if t.value.isComment then commentPrefixLen rest + 1 else 0

def ntmSpec (f : Token → Option α) (l : List (Sp Token)) :
    Option (Sp α) × Nat :=
  let k := commentPrefixLen l
  match (l.drop k).head? with
  | none => (none, k)
  | some t =>
    match f t.value with
    | none => (none, k)
    | some v => (some (t.span.sp v), k + 1)

def pC4 : Parser :=
  { tokens := [tokAt 0 (.Comment "note"), tokAt 1 (.Ident "x")], index := 0 }

def pC5 : Parser :=
  { tokens := [tokAt 0 (.Ident "x"), ⟨.Ident "y", ⟨⟨0, 0, 0⟩, ⟨1, 0, 1⟩⟩⟩],
    index := 2 }

/-! The claim theorems. -/

theorem c6_precedence :
    twoOpObs binRight? intLeaf? (runTryExpr 20 toksC6a) =
      (some (some (1, BinOp.Add, 2, BinOp.Mul, 3), spanAt 0 5, 5) : twoOpShape Int) ∧
    twoOpObs binRight? identLeaf? (runTryExpr 20 toksC6b) =
      (some (some ("a", BinOp.Or, "b", BinOp.And, "c"), spanAt 0 5, 5) : twoOpShape String) := by
  decide!

theorem c7_left_assoc : ∀ p ∈ leftAssocOps,
    twoOpObs binLeft? identLeaf? (runTryExpr 20 (c7Toks p.1)) =
      (some (some ("a", p.2, "b", p.2, "c"), spanAt 0 5, 5) : twoOpShape String) := by
  decide!

theorem c7_left_assoc_witness :
    twoOpObs binLeft? identLeaf?
        (runTryExpr 20 (c7Toks (Token.Simple Simple.Plus))) =
      (some (some ("a", BinOp.Add, "b", BinOp.Add, "c"), spanAt 0 5, 5) : twoOpShape String) :=
  c7_left_assoc (Token.Simple Simple.Plus, BinOp.Add) (by decide)

theorem c8_assignment :
    ((exprResult? (runTryExpr 20 toksC8chain)).map
        (fun r => (assignChain? r.1.value, r.1.span, r.2)) =
      (some (some ("a", none, "b", none, "c"), spanAt 0 5, 5) : assignChainShape)) ∧
    (∀ p ∈ compoundOps,
      (exprResult? (runTryExpr 20 (mkToks [.Ident "a", .Simple p.1, .Ident "b"]))).map
          (fun r => (assignPair? r.1.value, r.1.span, r.2)) =
        (some (some ("a", some p.2, "b"), spanAt 0 3, 3) : assignPairShape)) := by
  decide!

theorem c8_assignment_witness :
    (exprResult? (runTryExpr 20
        (mkToks [.Ident "a", .Simple Simple.PlusEquals, .Ident "b"]))).map
        (fun r => (assignPair? r.1.value, r.1.span, r.2)) =
      (some (some ("a", some BinOp.Add, "b"), spanAt 0 3, 3) : assignPairShape) :=
  c8_assignment.2 (Simple.PlusEquals, BinOp.Add) (by decide)

theorem c2_counterexample :
    ((exprResult? (runTryTerm 20 toks2a)).map fun r => tupleArity? r.1.value) =
      (some (some 1) : Option (Option Nat)) ∧
    ((exprResult? (runTryTerm 20 toks2b)).map fun r => tupleArity? r.1.value) =
      (some (some 1) : Option (Option Nat)) := by
  decide!

theorem c2_amended :
    termTupleObs toks2a = some (some [some ("a", spanAt 1 2)], spanAt 0 3, 3) ∧
    termTupleObs toks2b = some (some [some ("a", spanAt 1 2)], spanAt 0 4, 4) := by
  decide!

theorem c9_trailing_separator :
    termTupleObs toks9t =
      some (some [some ("a", spanAt 1 2), some ("b", spanAt 3 4),
        some ("c", spanAt 5 6)], spanAt 0 8, 8) ∧
    termTupleObs toks9c =
      some (some [some ("a", spanAt 1 2), some ("b", spanAt 3 4),
        some ("c", spanAt 5 6)], spanAt 0 7, 7) ∧
    termTupleObs toks9e = some (some [], spanAt 0 2, 2) := by
  decide!

theorem c1_trailing_token :
    itemsPhaseObs 20 toksC1 =
      some ([some ("x", spanAt 1 2, some 1, spanAt 3 4)], 5) ∧
    parseErrors? (parseTokens 20 toksC1) =
      some [⟨ParseError.Expected [Expectation.Eof]
        (some (tokAt 5 (Token.Simple Simple.CloseParen))), spanAt 5 6⟩] := by
  decide!

theorem parseErrors?_inv
    {r : Option (Except (List (Sp ParseError)) (List Item))}
    {es : List (Sp ParseError)} (h : parseErrors? r = some es) :
    r = some (.error es) := by
  unfold parseErrors? at h
  split at h
  · cases h; rfl
  · cases h

theorem c3_fail_fast :
    (∀ (fuel : Nat) (tokens : List (Sp Token)) (errs : List (Sp ParseError)),
      parseTokens fuel tokens = some (.error errs) → errs.length = 1) ∧
    parseErrors? (parseTokens 20 toksC3) =
      some [⟨ParseError.Expected [Expectation.Ty]
        (some (tokAt 5 (Token.Simple Simple.CloseParen))), spanAt 5 6⟩] := by
  constructor
  · intro fuel tokens errs h
    unfold parseTokens at h
    cases hp : parseItemsPhase fuel tokens with
    | none => rw [hp] at h; cases h
    | some x =>
      rw [hp] at h
      cases x with
      | error e => cases h; rfl
      | ok pr =>
        obtain ⟨items, p⟩ := pr
        dsimp at h
        split at h
        · cases he : expectedErr
              (ntmRun (fun _ => (none : Option Unit)) p).2 [Expectation.Eof] with
          | none => rw [he] at h; cases h
          | some e => rw [he] at h; cases h; rfl
        · cases h
  · decide!

theorem c3_fail_fast_witness :
    ([⟨ParseError.Expected [Expectation.Ty]
        (some (tokAt 5 (Token.Simple Simple.CloseParen))), spanAt 5 6⟩]
      : List (Sp ParseError)).length = 1 :=
  c3_fail_fast.1 20 toksC3 _ (parseErrors?_inv c3_fail_fast.2)

theorem c10_doc_comments_lost :
    parseOkObs 20 toks10full = parseOkObs 20 toks10rest ∧
    parseOkObs 20 toks10rest =
      some [some ("x", spanAt 3 4, some 1, spanAt 5 6)] := by
  decide!

theorem ntmGo_eq_spec (f : Token → Option α) (l : List (Sp Token)) :
    ntmGo f l = ntmSpec f l := by
  induction l with
  | nil => rfl
  | cons t rest ih =>
    cases hc : t.value.isComment with
    | true =>
      have hgo : ntmGo f (t :: rest) = ((ntmGo f rest).1, (ntmGo f rest).2 + 1) := by
        simp [ntmGo, hc]
      have hspec : ntmSpec f (t :: rest) = ((ntmSpec f rest).1, (ntmSpec f rest).2 + 1) := by
        simp only [ntmSpec, commentPrefixLen, hc]
        simp only [if_true, List.drop_succ_cons]
        cases hh : (rest.drop (commentPrefixLen rest)).head? with
        | none => rfl
        | some u =>
          dsimp only
          cases f u.value <;> rfl
      rw [hgo, hspec, ih]
    | false =>
      have hgo : ntmGo f (t :: rest) =
          match f t.value with
          | some x => (some (t.span.sp x), 1)
          | none => (none, 0) := by
        simp [ntmGo, hc]
      have hspec : ntmSpec f (t :: rest) =
          match f t.value with
          | some x => (some (t.span.sp x), 1)
          | none => (none, 0) := by
        simp only [ntmSpec, commentPrefixLen, hc]
        simp only [Bool.false_eq_true, if_false, List.drop_zero, List.head?_cons]
        cases f t.value <;> rfl
      rw [hgo, hspec]

theorem c4_counterexample :
    nextTokenMap Token.asInteger pC4 =
      some (.ok ((none : Option (Sp Int)), { tokens := pC4.tokens, index := 1 })) ∧
    pC4.index = 0 ∧ (0 : Nat) ≠ 1 := by
  exact ⟨rfl, rfl, by decide⟩

theorem c4_amended (f : Token → Option α) (p : Parser) :
    nextTokenMap f p =
      some (.ok ((ntmSpec f (p.tokens.drop p.index)).1,
        { tokens := p.tokens,
          index := p.index + (ntmSpec f (p.tokens.drop p.index)).2 })) := by
  unfold nextTokenMap ntmRun
  rw [ntmGo_eq_spec]

theorem c5_counterexample :
    lastSpan? pC5 = some ⟨⟨1, 0, 1⟩, ⟨2, 0, 2⟩⟩ ∧
    (⟨1, 0, 1⟩ : Loc) ≠ ⟨2, 0, 2⟩ := by
  exact ⟨rfl, by decide⟩

theorem c5_amended (p : Parser) :
    (∀ t, p.tokens[p.index]? = some t → lastSpan? p = some t.span) ∧
    (p.tokens[p.index]? = none →
      ∀ last, p.tokens.getLast? = some last →
        p.tokens.length ≤ last.span.stop.pos →
        lastSpan? p = some ⟨last.span.stop, last.span.stop⟩) := by
  constructor
  · intro t ht
    unfold lastSpan?
    rw [ht]
  · intro h last hl hle
    unfold lastSpan?
    rw [h, hl]
    have : ¬ p.tokens.length > last.span.stop.pos := by omega
    simp only [this, if_false]

theorem c5_amended_witness :
    lastSpan? { tokens := [tokAt 0 (.Ident "x")], index := 0 } =
      some (spanAt 0 1) ∧
    lastSpan? { tokens := [tokAt 0 (.Ident "x")], index := 1 } =
      some ⟨⟨1, 0, 1⟩, ⟨1, 0, 1⟩⟩ :=
  ⟨(c5_amended { tokens := [tokAt 0 (.Ident "x")], index := 0 }).1
      (tokAt 0 (.Ident "x")) rfl,
    (c5_amended { tokens := [tokAt 0 (.Ident "x")], index := 1 }).2
      rfl (tokAt 0 (.Ident "x")) rfl (by decide)⟩

end ParseRs
